import Mathlib

/-
Verification development for the RetentionX ffmpeg worker (src/index.js, final
revision of the file).  The two request handlers with algorithmic content are
embedded here:

  POST /analyze-silence : runs the external engine in silence-detection mode,
    then parses the captured diagnostic log line by line into intervals
    (parseStep / parseLines / parseSilences / analyzeSilence below).

  POST /apply-silence : validates a client-supplied interval list, compiles it
    into an ffmpeg select/aselect filter expression and builds the transcode
    command (validateSilences / buildFilterExpr / applySilence below).

JavaScript numbers are modelled as rationals: NaN, the two infinities, and
finite values as exact rational numbers.  Parsing, the toFixed(2) rounding,
comparison and subtraction keep the decimal values exactly; this is
observation-faithful for the per-interval report fields, which are printed
after toFixed(2).  Addition, which the program uses only in the
totalSilenceDuration reduce, is modelled as genuine IEEE binary64 addition:
each operand is taken to the double it denotes and the exactly computed sum
is rounded to the nearest double (ties to even), because the reported total
is an unrounded double whose value depends on the binary representation
error of the summands.  JavaScript string builtins used by the code (split,
includes, parseFloat, Number coercion, toFixed, number-to-string) are
modelled after their ECMAScript definitions.
-/

set_option maxRecDepth 4000

set_option maxHeartbeats 1600000

deriving instance DecidableEq for Except

/-- JSNumber models a JavaScript (IEEE double) number as used by this worker:
NaN, the two infinities, or a finite value represented as an exact rational. -/
inductive JSNumber where
  | nan : JSNumber
  | inf : JSNumber
  | ninf : JSNumber
  | fin : ℚ → JSNumber
deriving DecidableEq

/-- Number.isNaN, as used by the apply-silence validator. -/
def JSNumber.isNaN : JSNumber → Bool
  | .nan => true
  | _ => false

/-- JavaScript comparison a >= b: any comparison with NaN is false, infinities
compare as expected. -/
def jsGE : JSNumber → JSNumber → Bool
  | .nan, _ => false
  | _, .nan => false
  | _, .ninf => true
  | .ninf, _ => false
  | .inf, _ => true
  | .fin _, .inf => false
  | .fin a, .fin b => decide (b ≤ a)

/-- JavaScript subtraction a - b. -/
def jsSub : JSNumber → JSNumber → JSNumber
  | .nan, _ => .nan
  | _, .nan => .nan
  | .inf, .inf => .nan
  | .inf, _ => .inf
  | .ninf, .ninf => .nan
  | .ninf, _ => .ninf
  | .fin _, .inf => .ninf
  | .fin _, .ninf => .inf
  | .fin a, .fin b => .fin (a - b)

/-- Fuel-driven normalization of the positive rational nn / dd into the
binade [2 ^ 52, 2 ^ 53) by doubling one side at a time; returns the final
numerator, denominator and the binary exponent e with
initial nn / dd = (final nn / final dd) * 2 ^ e.  The fuel passed by
roundDouble always suffices. -/
def normScale : ℕ → ℕ → ℕ → ℤ → ℕ × ℕ × ℤ
  | 0, nn, dd, e => (nn, dd, e)
  | fuel + 1, nn, dd, e =>
    if nn < 2 ^ 52 * dd then normScale fuel (2 * nn) dd (e - 1)
    else if 2 ^ 53 * dd ≤ nn then normScale fuel nn (2 * dd) (e + 1)
    else (nn, dd, e)

/-- Round an exact rational to the nearest IEEE binary64 value (round to
nearest, ties to even), returned again as an exact rational: the magnitude
is scaled into [2 ^ 52, 2 ^ 53), rounded to an integer significand and
rescaled.  Overflow to infinity and subnormal precision loss are outside the
value range of this pipeline and are not modelled. -/
def roundDouble (q : ℚ) : ℚ :=
  if q.num = 0 then 0
  else
    let n := q.num.natAbs
    let d := q.den
    let (nn, dd, e) := normScale (n + d + 2200) n d 0
    let m0 := nn / dd
    let r2 := 2 * (nn % dd)
    let m : ℕ :=
      if r2 < dd then m0
      else if dd < r2 then m0 + 1
      else if m0 % 2 = 0 then m0 else m0 + 1
    let sgn : ℤ := if q.num < 0 then -1 else 1
    if 0 ≤ e then Rat.divInt (sgn * (m : ℤ) * 2 ^ e.toNat) 1
    else Rat.divInt (sgn * (m : ℤ)) (2 ^ (-e).toNat)

/-- Exact rational sum, written through divInt so that it evaluates. -/
def ratAddExact (a b : ℚ) : ℚ :=
  Rat.divInt (a.num * (b.den : ℤ) + b.num * (a.den : ℤ)) ((a.den : ℤ) * (b.den : ℤ))

/-- IEEE binary64 addition on the rational model: each operand is taken to
the double it denotes, the sum is computed exactly and rounded back to the
nearest double.  On operands that already denote doubles (as in the
totalSilenceDuration reduce, where every summand is a stored double) this is
exactly the addition the program performs. -/
def dblAdd (a b : ℚ) : ℚ := roundDouble (ratAddExact (roundDouble a) (roundDouble b))

/-- JavaScript addition a + b (on numbers): IEEE double addition on finite
values, the usual NaN and infinity propagation otherwise. -/
def jsAdd : JSNumber → JSNumber → JSNumber
  | .nan, _ => .nan
  | _, .nan => .nan
  | .inf, .ninf => .nan
  | .ninf, .inf => .nan
  | .inf, _ => .inf
  | _, .inf => .inf
  | .ninf, _ => .ninf
  | _, .ninf => .ninf
  | .fin a, .fin b => .fin (dblAdd a b)

/-- Rounding used by Number(x.toFixed(2)) on a finite value: the ECMAScript
toFixed spec first takes the absolute value, then picks the integer n with
n / 100 closest to the value, the larger n on ties, then reattaches the
sign.  On a nonnegative rational this is the floor of 100 q + 1/2. -/
def rnd2 (q : ℚ) : ℚ :=
  if q < 0 then -((⌊100 * -q + 1 / 2⌋ : ℚ) / 100) else (⌊100 * q + 1 / 2⌋ : ℚ) / 100

/-- Number(x.toFixed(2)) as the handler applies it: NaN and the infinities
round-trip through their string forms unchanged, finite values are rounded
to two decimal places. -/
def jsToFixed2 : JSNumber → JSNumber
  | .nan => .nan
  | .inf => .inf
  | .ninf => .ninf
  | .fin q => .fin (rnd2 q)

/-- Infix test on character lists, by scanning every suffix. -/
def listIsInfix (pat : List Char) : List Char → Bool
  | [] => pat.isEmpty
  | c :: rest => pat.isPrefixOf (c :: rest) || listIsInfix pat rest

/-- Model of String.prototype.includes, as in line.includes("silence_start"). -/
def jsIncludes (s pat : String) : Bool := listIsInfix pat.toList s.toList

/-- Numeric value of a digit character. -/
def digitVal (c : Char) : ℕ := c.toNat - 48

/-- Value of a string of decimal digits. -/
def natOfDigits (ds : List Char) : ℕ := ds.foldl (fun n c => 10 * n + digitVal c) 0

/-- Power of ten as a rational, with the exponentiation carried out on the
naturals (the rational power operation does not evaluate well). -/
def qPow10 (k : ℤ) : ℚ :=
  if 0 ≤ k then ((10 ^ k.toNat : ℕ) : ℚ) else 1 / ((10 ^ (-k).toNat : ℕ) : ℚ)

/-- Value of an integer digit string followed by a fractional digit string. -/
def decimalValue (ip fp : List Char) : ℚ :=
  (natOfDigits ip : ℚ) + (natOfDigits fp : ℚ) / ((10 ^ fp.length : ℕ) : ℚ)

/-- Exponent part consumed by parseFloat after the mantissa: e or E, optional
sign, then digits.  An incomplete exponent (no digits) is ignored, matching
parseFloat, which parses the longest valid prefix. -/
def expValue (cs : List Char) : ℤ :=
  match cs with
  | 'e' :: rest | 'E' :: rest =>
    match rest with
    | '-' :: r2 =>
      let ds := r2.takeWhile Char.isDigit
      if ds.isEmpty then 0 else -(natOfDigits ds : ℤ)
    | '+' :: r2 =>
      let ds := r2.takeWhile Char.isDigit
      if ds.isEmpty then 0 else (natOfDigits ds : ℤ)
    | _ =>
      let ds := rest.takeWhile Char.isDigit
      if ds.isEmpty then 0 else (natOfDigits ds : ℤ)
  | _ => 0

/-- Body of parseFloat after sign handling; neg records a leading minus. -/
def jsParseFloatBody (r : List Char) (neg : Bool) : JSNumber :=
  if "Infinity".toList.isPrefixOf r then
    if neg then .ninf else .inf
  else
    let ip := r.takeWhile Char.isDigit
    let r1 := r.dropWhile Char.isDigit
    let fp :=
      match r1 with
      | '.' :: r3 => r3.takeWhile Char.isDigit
      | _ => []
    let r2 :=
      match r1 with
      | '.' :: r3 => r3.dropWhile Char.isDigit
      | _ => r1
    if ip.isEmpty && fp.isEmpty then .nan
    else
      let v := decimalValue ip fp * qPow10 (expValue r2)
      .fin (if neg then -v else v)

/-- Model of the parseFloat builtin: skip leading whitespace, optional sign,
then the longest prefix that is Infinity or a decimal literal
(digits, optional dot and digits, optional exponent); NaN when no digit is
found.  Trailing text is ignored. -/
def jsParseFloat (s : String) : JSNumber :=
  let cs := s.toList.dropWhile Char.isWhitespace
  match cs with
  | '-' :: r => jsParseFloatBody r true
  | '+' :: r => jsParseFloatBody r false
  | r => jsParseFloatBody r false

/-- Model of parseFloat(line.split(sep)[1]): the segment of the split between
the first and second occurrence of sep.  When there is no occurrence the
index is out of range, the argument is undefined and parseFloat yields NaN. -/
def markerValue (line sep : String) : JSNumber :=
  match (line.splitOn sep)[1]? with
  | some part => jsParseFloat part
  | none => .nan

/-- Interval record pushed by the /analyze-silence parse loop:
start, end and duration as reported (already passed through toFixed(2)). -/
structure Silence where
  start : JSNumber
  «end» : JSNumber
  duration : JSNumber
deriving DecidableEq

/-- One iteration of the line loop in POST /analyze-silence.  The state is the
list built so far plus the pending start value (null at the beginning).  A
line containing silence_start overwrites the pending value; a line containing
silence_end, when a pending value exists (NaN included: NaN !== null), pushes
the interval rounded via toFixed(2) and clears the pending value. -/
def parseStep (acc : List Silence × Option JSNumber) (line : String) :
    List Silence × Option JSNumber :=
  let start1 : Option JSNumber :=
    if jsIncludes line "silence_start" then some (markerValue line "silence_start:")
    else acc.2
  match start1, jsIncludes line "silence_end" with
  | some s, true =>
    let e := markerValue line "silence_end:"
    (acc.1 ++ [{ start := jsToFixed2 s, «end» := jsToFixed2 e,
                 duration := jsToFixed2 (jsSub e s) }], none)
  | _, _ => (acc.1, start1)

/-- The parse loop over a list of lines, starting from the empty list and a
null pending start. -/
def parseLines (lines : List String) : List Silence :=
  (lines.foldl parseStep ([], none)).1

/-- The full parser of POST /analyze-silence: split the captured log on
newlines and run the line loop. -/
def parseSilences (log : String) : List Silence :=
  parseLines (log.splitOn "\n")

/-- Response body of POST /analyze-silence (the status field is constant). -/
structure AnalyzeReport where
  silences : List Silence
  totalSilenceDuration : JSNumber
deriving DecidableEq

/-- POST /analyze-silence response: the parsed list plus
silences.reduce((sum, s) => sum + s.duration, 0). -/
def analyzeSilence (log : String) : AnalyzeReport :=
  let silences := parseSilences log
  { silences := silences
    totalSilenceDuration := silences.foldl (fun sum s => jsAdd sum s.duration) (.fin 0) }

/-- JSON-derived values that can sit in the start and end fields of a
client-supplied silence element: numbers (including the infinities that
JSON.parse produces for overflowing literals such as 1e999), strings,
booleans, null, undefined (absent field), or some other object. -/
inductive JVal where
  | num : ℚ → JVal
  | inf : JVal
  | ninf : JVal
  | str : String → JVal
  | boolean : Bool → JVal
  | null : JVal
  | undef : JVal
  | object : JVal
deriving DecidableEq

/-- Hexadecimal digit test. -/
def isHexDigit (c : Char) : Bool :=
  c.isDigit || ('a' ≤ c && c ≤ 'f') || ('A' ≤ c && c ≤ 'F')

/-- Numeric value of a hexadecimal digit character. -/
def hexDigitVal (c : Char) : ℕ :=
  if c.isDigit then c.toNat - 48
  else if 'a' ≤ c && c ≤ 'f' then c.toNat - 87
  else c.toNat - 55

/-- Value of a digit string in base b. -/
def baseDigits (b : ℕ) (ds : List Char) : ℕ :=
  ds.foldl (fun n c => b * n + hexDigitVal c) 0

/-- Full-string decimal literal for the ToNumber string grammar: digits with
optional fraction and exponent, or fraction alone; unlike parseFloat the
entire remaining input must be consumed and an incomplete exponent is an
error. -/
def parseDecFull (r : List Char) : Option ℚ :=
  let ip := r.takeWhile Char.isDigit
  let r1 := r.dropWhile Char.isDigit
  let fp :=
    match r1 with
    | '.' :: r3 => r3.takeWhile Char.isDigit
    | _ => []
  let r2 :=
    match r1 with
    | '.' :: r3 => r3.dropWhile Char.isDigit
    | _ => r1
  if ip.isEmpty && fp.isEmpty then none
  else
    match r2 with
    | [] => some (decimalValue ip fp)
    | 'e' :: rest | 'E' :: rest =>
      match rest with
      | '-' :: r4 =>
        if !r4.isEmpty && r4.all Char.isDigit then
          some (decimalValue ip fp * qPow10 (-(natOfDigits r4 : ℤ)))
        else none
      | '+' :: r4 =>
        if !r4.isEmpty && r4.all Char.isDigit then
          some (decimalValue ip fp * qPow10 (natOfDigits r4 : ℤ))
        else none
      | _ =>
        if !rest.isEmpty && rest.all Char.isDigit then
          some (decimalValue ip fp * qPow10 (natOfDigits rest : ℤ))
        else none
    | _ => none

/-- Body of ToNumber after sign handling. -/
def stringToNumberBody (r : List Char) (neg : Bool) : JSNumber :=
  if r = "Infinity".toList then if neg then .ninf else .inf
  else
    match parseDecFull r with
    | some q => .fin (if neg then -q else q)
    | none => .nan

/-- Signed part of the ToNumber string grammar. -/
def stringToNumberSigned (t : List Char) : JSNumber :=
  match t with
  | '-' :: r => stringToNumberBody r true
  | '+' :: r => stringToNumberBody r false
  | r => stringToNumberBody r false

/-- ES ToNumber on a string: trim whitespace; the empty string is 0; then a
signed Infinity or decimal literal matching the whole string, or an unsigned
radix literal (0x, 0o, 0b); anything else is NaN. -/
def stringToNumber (s : String) : JSNumber :=
  let t := ((s.toList.dropWhile Char.isWhitespace).reverse.dropWhile
    Char.isWhitespace).reverse
  if t.isEmpty then .fin 0
  else
    match t with
    | '0' :: 'x' :: rest | '0' :: 'X' :: rest =>
      if !rest.isEmpty && rest.all isHexDigit then .fin (baseDigits 16 rest) else .nan
    | '0' :: 'o' :: rest | '0' :: 'O' :: rest =>
      if !rest.isEmpty && rest.all (fun c => '0' ≤ c && c ≤ '7') then
        .fin (baseDigits 8 rest)
      else .nan
    | '0' :: 'b' :: rest | '0' :: 'B' :: rest =>
      if !rest.isEmpty && rest.all (fun c => c == '0' || c == '1') then
        .fin (baseDigits 2 rest)
      else .nan
    | _ => stringToNumberSigned t

/-- ES ToNumber for the field values of a silence element, as invoked by
Number(s.start) and Number(s.end) in the apply-silence validator. -/
def toNumber : JVal → JSNumber
  | .num q => .fin q
  | .inf => .inf
  | .ninf => .ninf
  | .str s => stringToNumber s
  | .boolean b => .fin (if b then 1 else 0)
  | .null => .fin 0
  | .undef => .nan
  | .object => .nan

/-- One element of the client-supplied silence array: whatever sits in its
start and end fields (undef when the field, or the whole object shape, is
missing). -/
structure RawSilence where
  start : JVal
  «end» : JVal
deriving DecidableEq

/-- Result of JSON.parse on the silence payload, as far as the handler
inspects it: an array of elements, or any non-array value. -/
inductive Json where
  | arr : List RawSilence → Json
  | nonArray : Json
deriving DecidableEq

/-- Error responses of POST /apply-silence before the engine runs. -/
inductive ApplyError where
  | noFilesReceived : ApplyError
  | videoFileMissing : ApplyError
  | silenceListMissing : ApplyError
  | invalidSilenceJSON : ApplyError
  | emptySilenceList : ApplyError
  | invalidSilenceRange : JSNumber × JSNumber → ApplyError
deriving DecidableEq

/-- The map step of the validator: s => ({start: Number(s.start),
end: Number(s.end)}). -/
def coerceSilence (s : RawSilence) : JSNumber × JSNumber :=
  (toNumber s.start, toNumber s.«end»)

/-- The reject test of the validator loop: Number.isNaN(s.start) ||
Number.isNaN(s.end) || s.start >= s.end. -/
def badRange (s : JSNumber × JSNumber) : Bool :=
  s.1.isNaN || s.2.isNaN || jsGE s.1 s.2

/-- Steps 4 of POST /apply-silence: a non-array or empty payload is the
Empty silence list error; otherwise every element is coerced with Number and
the first element failing the NaN-or-inverted-range test is reported as
Invalid silence range together with that (coerced) element. -/
def validateSilences (j : Json) : Except ApplyError (List (JSNumber × JSNumber)) :=
  match j with
  | .nonArray => .error .emptySilenceList
  | .arr l =>
    if l.isEmpty then .error .emptySilenceList
    else
      let mapped := l.map coerceSilence
      match mapped.find? badRange with
      | some s => .error (.invalidSilenceRange s)
      | none => .ok mapped

/-- Count of the multiplicity of p in n (fuel-driven so that it reduces in
the kernel). -/
def factorCountAux (p : ℕ) : ℕ → ℕ → ℕ
  | 0, _ => 0
  | fuel + 1, n =>
    if 2 ≤ p ∧ 0 < n ∧ n % p = 0 then factorCountAux p fuel (n / p) + 1 else 0

/-- Multiplicity of p in n. -/
def factorCount (p n : ℕ) : ℕ := factorCountAux p n n

/-- Decimal digit character for a value below ten. -/
def digitChar (n : ℕ) : Char := Char.ofNat (48 + n)

/-- Digits of n, least significant first (fuel-driven). -/
def natDigitsAux : ℕ → ℕ → List Char
  | 0, _ => []
  | fuel + 1, n =>
    if n < 10 then [digitChar n] else digitChar (n % 10) :: natDigitsAux fuel (n / 10)

/-- Decimal digit string of a natural number. -/
def natToChars (n : ℕ) : List Char := (natDigitsAux (n + 1) n).reverse

/-- Decimal string of a rational with terminating decimal expansion, in the
style of JavaScript number-to-string for doubles in the plain-notation range:
minus sign, integer digits, then the fractional digits with trailing zeros
removed.  Every finite double has a terminating expansion, so this is exact
on every value the pipeline can produce. -/
def qToString (q : ℚ) : String :=
  let sgn := if q < 0 then "-" else ""
  let n := q.num.natAbs
  let d := q.den
  let k := max (factorCount 2 d) (factorCount 5 d)
  let scaled := n * 10 ^ k / d
  let ipart := natToChars (scaled / 10 ^ k)
  let fdigits := natToChars (scaled % 10 ^ k)
  let fpad := List.replicate (k - fdigits.length) '0' ++ fdigits
  let fstripped := (fpad.reverse.dropWhile (fun c => c == '0')).reverse
  sgn ++ String.mk ipart ++ (if fstripped.isEmpty then "" else "." ++ String.mk fstripped)

/-- JavaScript string conversion of a number, as performed by the template
literal in the filter builder. -/
def numToString : JSNumber → String
  | .nan => "NaN"
  | .inf => "Infinity"
  | .ninf => "-Infinity"
  | .fin q => qToString q

/-- The template between(t,start,end) for one coerced silence element. -/
def betweenTerm (s : JSNumber × JSNumber) : String :=
  "between(t," ++ numToString s.1 ++ "," ++ numToString s.2 ++ ")"

/-- Array.prototype.join with separator plus sign; empty array joins to the
empty string. -/
def joinPlus : List String → String
  | [] => ""
  | [x] => x
  | x :: xs => x ++ "+" ++ joinPlus xs

/-- Step 5 of POST /apply-silence: the filter expression
silences.map(s => between(t,start,end)).join("+"). -/
def buildFilterExpr (silences : List (JSNumber × JSNumber)) : String :=
  joinPlus (silences.map betweenTerm)

/-- The -af argument of the transcode command. -/
def audioFilterArg (silences : List (JSNumber × JSNumber)) : String :=
  "aselect='not(" ++ buildFilterExpr silences ++ ")',asetpts=N/SR/TB"

/-- The -vf argument of the transcode command. -/
def videoFilterArg (silences : List (JSNumber × JSNumber)) : String :=
  "select='not(" ++ buildFilterExpr silences ++ ")',setpts=N/FRAME_RATE/TB"

/-- The transcode command built by POST /apply-silence (template-literal
line breaks and indentation elided; the argument structure is kept). -/
def applyCmd (inputPath outputPath : String) (silences : List (JSNumber × JSNumber)) :
    String :=
  "ffmpeg -y -i \"" ++ inputPath ++ "\" -af \"" ++ audioFilterArg silences ++
    "\" -vf \"" ++ videoFilterArg silences ++ "\" \"" ++ outputPath ++ "\""

/-- One entry of req.files under upload.any(): its field name and the multer
path (none when absent or falsy). -/
structure UploadedFile where
  fieldname : String
  path : Option String
deriving DecidableEq

/-- The silence payload as found in the request body: either a string field
together with the outcome of JSON.parse on it (none models a parse throw), or
an already-parsed value.  JSON.parse itself is an external builtin; its
outcome is part of the request environment here. -/
inductive SilencesSource where
  | fromString : Option Json → SilencesSource
  | direct : Json → SilencesSource
deriving DecidableEq

/-- Request to POST /apply-silence: req.files (none when missing or not an
array), and the first truthy of req.body.silences, silenceSegments and
silence_list (none when all are absent). -/
structure ApplyRequest where
  files : Option (List UploadedFile)
  silencesRaw : Option SilencesSource
deriving DecidableEq

/-- The parsed JSON carried by a silence payload. -/
def sourceJson : SilencesSource → Option Json
  | .fromString p => p
  | .direct j => some j

/-- POST /apply-silence: the chain of early-return validations, then the
transcode command handed to the engine.  An error result means the handler
responded before any external process was spawned; the output path (a random
temp name at runtime) is a parameter. -/
def applySilence (req : ApplyRequest) (outputPath : String) :
    Except ApplyError String :=
  match req.files with
  | none => .error .noFilesReceived
  | some files =>
    match files.find? (fun f => f.fieldname == "video") with
    | none => .error .videoFileMissing
    | some vf =>
      match vf.path with
      | none => .error .videoFileMissing
      | some inputPath =>
        match req.silencesRaw with
        | none => .error .silenceListMissing
        | some src =>
          match sourceJson src with
          | none => .error .invalidSilenceJSON
          | some j =>
            match validateSilences j with
            | .error e => .error e
            | .ok silences => .ok (applyCmd inputPath outputPath silences)

/-- Video path the handler would use: present only when req.files is an array
holding a video entry with a path. -/
def requestVideoPath (req : ApplyRequest) : Option String :=
  match req.files with
  | none => none
  | some files =>
    match files.find? (fun f => f.fieldname == "video") with
    | none => none
    | some vf => vf.path

/-- Parsed silence array of the request: present only when a payload exists,
parses, and is an array. -/
def requestSilences (req : ApplyRequest) : Option (List RawSilence) :=
  match req.silencesRaw with
  | none => none
  | some src =>
    match sourceJson src with
    | some (.arr l) => some l
    | _ => none

/-- Characterization of a diagnostic line carrying a silence_start event with
value s and no silence_end marker. -/
abbrev IsStartLine (line : String) (s : ℚ) : Prop :=
  jsIncludes line "silence_start" = true ∧ jsIncludes line "silence_end" = false ∧
    markerValue line "silence_start:" = .fin s

/-- Characterization of a diagnostic line carrying a silence_end event with
value e and no silence_start marker. -/
abbrev IsEndLine (line : String) (e : ℚ) : Prop :=
  jsIncludes line "silence_end" = true ∧ jsIncludes line "silence_start" = false ∧
    markerValue line "silence_end:" = .fin e

/-- Characterization of a diagnostic line carrying neither marker. -/
abbrev IsNeutralLine (line : String) : Prop :=
  jsIncludes line "silence_start" = false ∧ jsIncludes line "silence_end" = false

/-- Valid diagnostic text, as the engine invoked with
silencedetect=n=-30dB:d=0.3 produces it: an interleaving of neutral lines
with well-formed silence_start / silence_end pairs, each pair carrying
numeric values at least the configured minimum silence duration 0.3 apart.
The second index lists the raw value pairs in input order. -/
inductive ValidDiag : List String → List (ℚ × ℚ) → Prop where
  | nil : ValidDiag [] []
  | skip {line : String} {lines : List String} {ps : List (ℚ × ℚ)} :
      IsNeutralLine line → ValidDiag lines ps → ValidDiag (line :: lines) ps
  | pair {l1 l2 : String} {mid lines : List String} {ps : List (ℚ × ℚ)} {s e : ℚ} :
      IsStartLine l1 s → (∀ m ∈ mid, IsNeutralLine m) → IsEndLine l2 e →
      3 / 10 ≤ e - s → ValidDiag lines ps →
      ValidDiag (l1 :: (mid ++ l2 :: lines)) ((s, e) :: ps)

/-- Concrete apply request used to witness the fully validated path: a video
upload with a path and a directly supplied one-element silence array. -/
def applyReqEx : ApplyRequest :=
  { files := some [{ fieldname := "video", path := some "in.mp4" }]
    silencesRaw := some (.direct (.arr [{ start := .num 1, «end» := .num 2 }])) }

/-- The interval record the parse loop pushes for the raw pair p. -/
def mkSilence (p : ℚ × ℚ) : Silence :=
  { start := .fin (rnd2 p.1), «end» := .fin (rnd2 p.2),
    duration := .fin (rnd2 (p.2 - p.1)) }

theorem parseStep_neutral (st : List Silence × Option JSNumber) {line : String}
    (h : IsNeutralLine line) : parseStep st line = st := by
  obtain ⟨h1, h2⟩ := h
  obtain ⟨sil, pend⟩ := st
  unfold parseStep
  rw [h1, h2]
  cases pend <;> rfl

theorem parseStep_startval (st : List Silence × Option JSNumber) {line : String}
    {v : JSNumber} (h1 : jsIncludes line "silence_start" = true)
    (h2 : jsIncludes line "silence_end" = false)
    (h3 : markerValue line "silence_start:" = v) :
    parseStep st line = (st.1, some v) := by
  unfold parseStep
  rw [h1, h2, h3]
  rfl

theorem parseStep_end_pending (sil : List Silence) (v : JSNumber) {line : String}
    {e : ℚ} (h : IsEndLine line e) :
    parseStep (sil, some v) line =
      (sil ++ [{ start := jsToFixed2 v, «end» := .fin (rnd2 e),
                 duration := jsToFixed2 (jsSub (.fin e) v) }], none) := by
  obtain ⟨h1, h2, h3⟩ := h
  unfold parseStep
  rw [h1, h2, h3]
  rfl

theorem parseStep_end_none (sil : List Silence) {line : String} {e : ℚ}
    (h : IsEndLine line e) : parseStep (sil, none) line = (sil, none) := by
  obtain ⟨h1, h2, _⟩ := h
  unfold parseStep
  rw [h1, h2]
  rfl

theorem foldl_neutral (mid : List String) (hmid : ∀ m ∈ mid, IsNeutralLine m)
    (st : List Silence × Option JSNumber) : mid.foldl parseStep st = st := by
  induction mid generalizing st with
  | nil => rfl
  | cons m ms ih =>
    rw [List.foldl_cons, parseStep_neutral _ (hmid m (by simp))]
    exact ih (fun x hx => hmid x (by simp [hx])) st

theorem foldl_validDiag {lines : List String} {ps : List (ℚ × ℚ)}
    (h : ValidDiag lines ps) (sil : List Silence) :
    lines.foldl parseStep (sil, none) = (sil ++ ps.map mkSilence, none) := by
  induction h generalizing sil with
  | nil => simp
  | skip hn _ ih => rw [List.foldl_cons, parseStep_neutral _ hn, ih]
  | pair hs hmid he hgap _ ih =>
    rw [List.foldl_cons, parseStep_startval _ hs.1 hs.2.1 hs.2.2, List.foldl_append,
        foldl_neutral _ hmid _, List.foldl_cons, parseStep_end_pending _ _ he, ih]
    simp [mkSilence, jsToFixed2, jsSub]

theorem parseLines_validDiag {lines : List String} {ps : List (ℚ × ℚ)}
    (h : ValidDiag lines ps) : parseLines lines = ps.map mkSilence := by
  unfold parseLines
  rw [foldl_validDiag h []]
  simp

theorem validDiag_gap {lines : List String} {ps : List (ℚ × ℚ)}
    (h : ValidDiag lines ps) : ∀ p ∈ ps, 3 / 10 ≤ p.2 - p.1 := by
  induction h with
  | nil => simp
  | skip _ _ ih => exact ih
  | pair _ _ _ hgap _ ih =>
    intro p hp
    rcases List.mem_cons.mp hp with rfl | hp2
    · exact hgap
    · exact ih p hp2

theorem rnd2_close (q : ℚ) : |rnd2 q - q| ≤ 1 / 200 := by
  have key : ∀ r : ℚ, |((⌊100 * r + 1 / 2⌋ : ℚ) / 100) - r| ≤ 1 / 200 := by
    intro r
    have h1 : (⌊100 * r + 1 / 2⌋ : ℚ) ≤ 100 * r + 1 / 2 := Int.floor_le _
    have h2 : 100 * r + 1 / 2 - 1 < (⌊100 * r + 1 / 2⌋ : ℚ) := Int.sub_one_lt_floor _
    rw [abs_le]
    exact ⟨by linarith, by linarith⟩
  unfold rnd2
  split
  · have hk := key (-q)
    rw [abs_le] at hk ⊢
    exact ⟨by linarith [hk.1, hk.2], by linarith [hk.1, hk.2]⟩
  · exact key q

theorem rnd2_lt_of_gap {s e : ℚ} (h : 3 / 10 ≤ e - s) : rnd2 s < rnd2 e := by
  have hs := rnd2_close s
  have he := rnd2_close e
  rw [abs_le] at hs he
  linarith [hs.1, hs.2, he.1, he.2]

/-- C1: for every valid diagnostic text containing N well-formed
silence_start / silence_end pairs, the parser returns exactly N intervals, in
input order (the k-th returned interval is the toFixed(2) image of the k-th
raw pair; the parser does not re-sort), and every returned interval satisfies
end > start. -/
theorem analyze_parser_returns_all_pairs_in_order (log : String)
    (ps : List (ℚ × ℚ)) (h : ValidDiag (log.splitOn "\n") ps) :
    parseSilences log = ps.map mkSilence ∧
    (parseSilences log).length = ps.length ∧
    ∀ iv ∈ parseSilences log, ∃ s e : ℚ,
      iv.start = .fin s ∧ iv.«end» = .fin e ∧ s < e := by
  have hmain : parseSilences log = ps.map mkSilence := parseLines_validDiag h
  refine ⟨hmain, by rw [hmain]; simp, ?_⟩
  intro iv hiv
  rw [hmain] at hiv
  obtain ⟨p, hp, rfl⟩ := List.mem_map.mp hiv
  exact ⟨rnd2 p.1, rnd2 p.2, rfl, rfl, rnd2_lt_of_gap (validDiag_gap h p hp)⟩

theorem validDiag_two_lines :
    ValidDiag ["silence_start: 1", "silence_end: 2"] [(1, 2)] := by
  show ValidDiag ("silence_start: 1" :: ([] ++ "silence_end: 2" :: [])) [((1 : ℚ), (2 : ℚ))]
  exact ValidDiag.pair (by with_unfolding_all decide) (by simp)
    (by with_unfolding_all decide) (by norm_num) ValidDiag.nil

/-- Witness for C1 at a concrete two-line log. -/
theorem analyze_parser_returns_all_pairs_in_order_witness :
    parseSilences "silence_start: 1\nsilence_end: 2" =
      [{ start := .fin 1, «end» := .fin 2, duration := .fin 1 }] := by
  have hsplit : "silence_start: 1\nsilence_end: 2".splitOn "\n" =
      ["silence_start: 1", "silence_end: 2"] := by with_unfolding_all decide
  have h := (analyze_parser_returns_all_pairs_in_order "silence_start: 1\nsilence_end: 2"
    [(1, 2)] (by rw [hsplit]; exact validDiag_two_lines)).1
  rw [h]
  with_unfolding_all decide

/-- C7: the parser never fabricates intervals from malformed log boundaries: a
silence_end line with no pending silence_start is ignored, and a trailing
silence_start with no matching silence_end is discarded, so decorating a valid
log with both changes nothing. -/
theorem dangling_markers_produce_no_interval (le0 ls0 : String) (e0 s0 : ℚ)
    (lines : List String) (ps : List (ℚ × ℚ))
    (hE : IsEndLine le0 e0) (hS : IsStartLine ls0 s0) (h : ValidDiag lines ps) :
    parseLines (le0 :: (lines ++ [ls0])) = ps.map mkSilence ∧
    parseLines (le0 :: (lines ++ [ls0])) = parseLines lines := by
  have hl := foldl_validDiag h []
  have hmain : parseLines (le0 :: (lines ++ [ls0])) = ps.map mkSilence := by
    unfold parseLines
    rw [List.foldl_cons, parseStep_end_none _ hE, List.foldl_append, hl,
        List.foldl_cons, List.foldl_nil, parseStep_startval _ hS.1 hS.2.1 hS.2.2]
    simp
  exact ⟨hmain, hmain.trans (parseLines_validDiag h).symm⟩

/-- Witness for C7: a dangling end line in front and a trailing unterminated
start line around a valid one-pair log leave the parse unchanged. -/
theorem dangling_markers_produce_no_interval_witness :
    parseLines ["silence_end: 9", "silence_start: 1", "silence_end: 2",
      "silence_start: 5"] =
      [{ start := .fin 1, «end» := .fin 2, duration := .fin 1 }] := by
  have h := (dangling_markers_produce_no_interval "silence_end: 9" "silence_start: 5"
    9 5 ["silence_start: 1", "silence_end: 2"] [(1, 2)]
    (by with_unfolding_all decide) (by with_unfolding_all decide)
    validDiag_two_lines).1
  rw [show (["silence_end: 9", "silence_start: 1", "silence_end: 2",
      "silence_start: 5"] : List String) =
    "silence_end: 9" :: (["silence_start: 1", "silence_end: 2"] ++
      ["silence_start: 5"]) from rfl, h]
  with_unfolding_all decide

/-- C9: a second silence_start while one is pending overwrites it: parsing is
unchanged when the superseded start line is dropped, and in a three-line log
the emitted interval pairs the second start value with the end value, so the
superseded start never produces an interval. -/
theorem second_start_overwrites_pending (l1 l2 : String) (s1 s2 : ℚ)
    (rest : List String) (h1 : IsStartLine l1 s1) (h2 : IsStartLine l2 s2) :
    parseLines (l1 :: l2 :: rest) = parseLines (l2 :: rest) ∧
    ∀ l3 e, IsEndLine l3 e → parseLines [l1, l2, l3] = [mkSilence (s2, e)] := by
  constructor
  · unfold parseLines
    rw [List.foldl_cons, List.foldl_cons, List.foldl_cons,
        parseStep_startval _ h1.1 h1.2.1 h1.2.2,
        parseStep_startval _ h2.1 h2.2.1 h2.2.2,
        parseStep_startval _ h2.1 h2.2.1 h2.2.2]
  · intro l3 e he
    unfold parseLines
    rw [List.foldl_cons, List.foldl_cons, List.foldl_cons,
        parseStep_startval _ h1.1 h1.2.1 h1.2.2,
        parseStep_startval _ h2.1 h2.2.1 h2.2.2,
        parseStep_end_pending _ _ he, List.foldl_nil]
    simp [mkSilence, jsToFixed2, jsSub]

/-- Witness for C9: two consecutive start lines followed by one end line give
the single interval built from the second start. -/
theorem second_start_overwrites_pending_witness :
    parseLines ["silence_start: 1", "silence_start: 2", "silence_end: 3"] =
      [{ start := .fin 2, «end» := .fin 3, duration := .fin 1 }] := by
  have h := (second_start_overwrites_pending "silence_start: 1" "silence_start: 2"
    1 2 ["silence_end: 3"] (by with_unfolding_all decide)
    (by with_unfolding_all decide)).2 "silence_end: 3" 3 (by with_unfolding_all decide)
  rw [h]
  with_unfolding_all decide

/-- C4 (amended): when the text after a silence_start marker does not parse as
a number, parseFloat yields NaN and the parse does not fail: the NaN pending
start still pairs with the next silence_end and the parser returns an interval
whose start and duration are NaN.  No MalformedDiagnostic error exists in the
code. -/
theorem malformed_number_parses_to_nan_interval (l1 l2 : String) (e : ℚ)
    (h1 : jsIncludes l1 "silence_start" = true)
    (h2 : jsIncludes l1 "silence_end" = false)
    (h3 : markerValue l1 "silence_start:" = .nan)
    (hE : IsEndLine l2 e) :
    parseLines [l1, l2] =
      [{ start := .nan, «end» := .fin (rnd2 e), duration := .nan }] := by
  unfold parseLines
  rw [List.foldl_cons, parseStep_startval _ h1 h2 h3, List.foldl_cons,
      parseStep_end_pending _ _ hE, List.foldl_nil]
  simp [jsToFixed2, jsSub]

/-- Witness for the amended C4 at a concrete malformed log. -/
theorem malformed_number_parses_to_nan_interval_witness :
    parseLines ["silence_start: x", "silence_end: 2"] =
      [{ start := .nan, «end» := .fin 2, duration := .nan }] := by
  have h := malformed_number_parses_to_nan_interval "silence_start: x"
    "silence_end: 2" 2 (by with_unfolding_all decide) (by with_unfolding_all decide)
    (by with_unfolding_all decide) (by with_unfolding_all decide)
  rw [h]
  with_unfolding_all decide

/-- Counterexample to C4 as stated: on a log whose silence_start payload is
not numeric the parser does not fail with any error and does not return the
empty list; it returns one best-effort interval with NaN fields. -/
theorem malformed_number_still_yields_interval :
    parseSilences "silence_start: x\nsilence_end: 2" =
      [{ start := .nan, «end» := .fin 2, duration := .nan }] ∧
    parseSilences "silence_start: x\nsilence_end: 2" ≠ [] := by
  constructor
  · with_unfolding_all decide
  · with_unfolding_all decide

/-- C10: each duration is computed from the unrounded start and end before
those fields are rounded: on the log with raw pair (1.004, 2.006) the report
shows start 1, end 2.01 and duration 1, and the difference of the reported
end and reported start is not the reported duration. -/
theorem duration_from_unrounded_values :
    parseSilences "silence_start: 1.004\nsilence_end: 2.006" =
      [{ start := .fin 1, «end» := .fin (201 / 100), duration := .fin 1 }] ∧
    jsSub (.fin (201 / 100)) (.fin 1) ≠ .fin 1 := by
  constructor
  · with_unfolding_all decide
  · with_unfolding_all decide

theorem rnd2_int_div (m : ℤ) : rnd2 ((m : ℚ) / 100) = (m : ℚ) / 100 := by
  have hfloor : ∀ z : ℤ, ⌊(z : ℚ) + 1 / 2⌋ = z := by
    intro z
    rw [Int.floor_int_add]
    have : ⌊(1 / 2 : ℚ)⌋ = 0 := by
      rw [Int.floor_eq_zero_iff]
      constructor <;> norm_num
    rw [this, add_zero]
  unfold rnd2
  split
  · have harg : (100 : ℚ) * -((m : ℚ) / 100) = ((-m : ℤ) : ℚ) := by push_cast; ring
    rw [harg, hfloor (-m)]
    push_cast
    ring
  · have harg : (100 : ℚ) * ((m : ℚ) / 100) = ((m : ℤ) : ℚ) := by ring
    rw [harg, hfloor m]

theorem rnd2_rep (q : ℚ) : ∃ m : ℤ, rnd2 q = (m : ℚ) / 100 := by
  unfold rnd2
  split
  · exact ⟨-⌊100 * -q + 1 / 2⌋, by push_cast [Int.cast_neg]; ring⟩
  · exact ⟨⌊100 * q + 1 / 2⌋, rfl⟩

theorem rnd2_idem (q : ℚ) : rnd2 (rnd2 q) = rnd2 q := by
  obtain ⟨m, hm⟩ := rnd2_rep q
  rw [hm, rnd2_int_div]

/-- C8 (amended): in the analyze report every interval duration equals
round(end - start, 2) computed on the raw pair, every per-interval field is
already rounded to 2 decimal places (a fixed point of the toFixed(2)
rounding), and totalSilenceDuration is the reduce of the interval durations
under IEEE double addition, in input order, starting from 0.  The total is
not re-rounded: being a plain double sum it need not be a 2-decimal value. -/
theorem analyze_report_durations_total_unrounded (log : String) (ps : List (ℚ × ℚ))
    (h : ValidDiag (log.splitOn "\n") ps) :
    (analyzeSilence log).silences = ps.map mkSilence ∧
    (∀ p ∈ ps, (mkSilence p).duration = .fin (rnd2 (p.2 - p.1))) ∧
    (analyzeSilence log).totalSilenceDuration =
      (ps.map (fun p => JSNumber.fin (rnd2 (p.2 - p.1)))).foldl jsAdd (.fin 0) ∧
    (∀ iv ∈ (analyzeSilence log).silences, ∃ a b d : ℚ,
      iv.start = .fin a ∧ iv.«end» = .fin b ∧ iv.duration = .fin d ∧
      rnd2 a = a ∧ rnd2 b = b ∧ rnd2 d = d) := by
  have hmain : parseSilences log = ps.map mkSilence := parseLines_validDiag h
  have hsil : (analyzeSilence log).silences = ps.map mkSilence := by
    rw [show (analyzeSilence log).silences = parseSilences log from rfl, hmain]
  refine ⟨hsil, fun p _ => rfl, ?_, ?_⟩
  · rw [show (analyzeSilence log).totalSilenceDuration
        = (parseSilences log).foldl (fun sum s => jsAdd sum s.duration) (.fin 0)
        from rfl, hmain, List.foldl_map, List.foldl_map]
    rfl
  · intro iv hiv
    rw [hsil] at hiv
    obtain ⟨p, _, rfl⟩ := List.mem_map.mp hiv
    exact ⟨rnd2 p.1, rnd2 p.2, rnd2 (p.2 - p.1), rfl, rfl, rfl,
      rnd2_idem p.1, rnd2_idem p.2, rnd2_idem (p.2 - p.1)⟩

theorem validDiag_unrounded_lines :
    ValidDiag ["silence_start: 0", "silence_end: 0.3", "silence_start: 1",
      "silence_end: 1.6"] [(0, 3 / 10), (1, 8 / 5)] := by
  show ValidDiag ("silence_start: 0" :: ([] ++ "silence_end: 0.3" ::
    ("silence_start: 1" :: ([] ++ "silence_end: 1.6" :: []))))
    [((0 : ℚ), (3 / 10 : ℚ)), (1, 8 / 5)]
  refine ValidDiag.pair (by with_unfolding_all decide) (by simp)
    (by with_unfolding_all decide) (by norm_num) ?_
  exact ValidDiag.pair (by with_unfolding_all decide) (by simp)
    (by with_unfolding_all decide) (by norm_num) ValidDiag.nil

theorem splitOn_unrounded_log :
    String.splitOn
      "silence_start: 0\nsilence_end: 0.3\nsilence_start: 1\nsilence_end: 1.6"
      "\n" =
    ["silence_start: 0", "silence_end: 0.3", "silence_start: 1",
      "silence_end: 1.6"] := by
  with_unfolding_all decide

/-- Witness for the amended C8 at a concrete two-pair log with durations
0.3 and 0.6. -/
theorem analyze_report_durations_total_unrounded_witness :
    (analyzeSilence
      "silence_start: 0\nsilence_end: 0.3\nsilence_start: 1\nsilence_end: 1.6"
      ).totalSilenceDuration =
      (([(0, 3 / 10), (1, 8 / 5)] : List (ℚ × ℚ)).map
        (fun p => JSNumber.fin (rnd2 (p.2 - p.1)))).foldl jsAdd (.fin 0) :=
  (analyze_report_durations_total_unrounded
    "silence_start: 0\nsilence_end: 0.3\nsilence_start: 1\nsilence_end: 1.6"
    [(0, 3 / 10), (1, 8 / 5)]
    (by rw [splitOn_unrounded_log]; exact validDiag_unrounded_lines)).2.2.1

/-- Counterexample to C8 as stated: on the log with durations 0.3 and 0.6
the reported totalSilenceDuration is the IEEE double sum
8106479329266892 / 2 ^ 53, the value printed as 0.8999999999999999, which is
not a fixed point of the 2-decimal rounding: the report contains a float not
rounded to 2 decimal places. -/
theorem unrounded_total_counterexample :
    (analyzeSilence
      "silence_start: 0\nsilence_end: 0.3\nsilence_start: 1\nsilence_end: 1.6"
      ).totalSilenceDuration =
      .fin (Rat.divInt 8106479329266892 9007199254740992) ∧
    Rat.divInt 8106479329266892 9007199254740992 =
      (8106479329266892 : ℚ) / 9007199254740992 ∧
    rnd2 ((8106479329266892 : ℚ) / 9007199254740992) ≠
      (8106479329266892 : ℚ) / 9007199254740992 := by
  refine ⟨?_, by rw [Rat.divInt_eq_div]; norm_num, ?_⟩
  · have hv : ValidDiag (String.splitOn
        "silence_start: 0\nsilence_end: 0.3\nsilence_start: 1\nsilence_end: 1.6"
        "\n") [(0, 3 / 10), (1, 8 / 5)] := by
      rw [splitOn_unrounded_log]
      exact validDiag_unrounded_lines
    have hsil : parseSilences
        "silence_start: 0\nsilence_end: 0.3\nsilence_start: 1\nsilence_end: 1.6"
        = ([((0 : ℚ), (3 / 10 : ℚ)), (1, 8 / 5)]).map mkSilence :=
      parseLines_validDiag hv
    have hrec : ([((0 : ℚ), (3 / 10 : ℚ)), (1, 8 / 5)]).map mkSilence =
        [{ start := .fin 0, «end» := .fin (Rat.divInt 3 10),
           duration := .fin (Rat.divInt 3 10) },
         { start := .fin 1, «end» := .fin (Rat.divInt 8 5),
           duration := .fin (Rat.divInt 3 5) }] := by
      with_unfolding_all decide
    rw [show (analyzeSilence
        "silence_start: 0\nsilence_end: 0.3\nsilence_start: 1\nsilence_end: 1.6"
        ).totalSilenceDuration
        = (parseSilences
            "silence_start: 0\nsilence_end: 0.3\nsilence_start: 1\nsilence_end: 1.6"
          ).foldl (fun sum s => jsAdd sum s.duration) (.fin 0) from rfl,
      hsil, hrec]
    simp only [List.foldl_cons, List.foldl_nil]
    decide
  · have hfl : ⌊100 * ((8106479329266892 : ℚ) / 9007199254740992) + 1 / 2⌋ = 90 := by
      rw [Int.floor_eq_iff]
      constructor <;> norm_num
    have h1 : rnd2 ((8106479329266892 : ℚ) / 9007199254740992) = 9 / 10 := by
      unfold rnd2
      rw [if_neg (by norm_num), hfl]
      norm_num
    intro hcontra
    rw [h1] at hcontra
    exact absurd hcontra (by norm_num)

theorem find?_first {α : Type} (p : α → Bool) (l : List α) (i : ℕ) (hi : i < l.length)
    (hbefore : ∀ j, (hj : j < l.length) → j < i → p (l.get ⟨j, hj⟩) = false)
    (hp : p (l.get ⟨i, hi⟩) = true) :
    l.find? p = some (l.get ⟨i, hi⟩) := by
  induction l generalizing i with
  | nil => simp at hi
  | cons a t ih =>
    cases i with
    | zero => exact List.find?_cons_of_pos _ hp
    | succ n =>
      have ha : p a = false := hbefore 0 (by simp) (Nat.succ_pos n)
      rw [List.find?_cons_of_neg _ (by simp [ha])]
      exact ih n (Nat.lt_of_succ_lt_succ hi)
        (fun j hj hji => hbefore (j + 1) (by simpa using Nat.succ_lt_succ hj)
          (Nat.succ_lt_succ hji)) hp

theorem validateSilences_arr_cons (a : RawSilence) (t : List RawSilence) :
    validateSilences (.arr (a :: t)) =
      match ((a :: t).map coerceSilence).find? badRange with
      | some s => .error (.invalidSilenceRange s)
      | none => .ok ((a :: t).map coerceSilence) := rfl

theorem get_map_coerce (l : List RawSilence) (i : ℕ) (hi : i < l.length) :
    (l.map coerceSilence).get ⟨i, by simpa using hi⟩ = coerceSilence (l.get ⟨i, hi⟩) := by
  simp [List.get_eq_getElem, List.getElem_map]

/-- C3 (amended): the validator rules apply in order with first failure
winning: a non-array or empty list yields emptySilenceList; otherwise the
first element (in input order) whose coerced start or end is NaN or whose
coerced start is >= its coerced end yields invalidSilenceRange carrying that
coerced element; a list with no such element validates to the coerced list.
Coercions to the non-finite, non-NaN values Infinity and -Infinity are not
rejected by the NaN test. -/
theorem validator_rules_in_order :
    validateSilences .nonArray = .error .emptySilenceList ∧
    validateSilences (.arr []) = .error .emptySilenceList ∧
    (∀ l : List RawSilence, ∀ i : ℕ, ∀ hi : i < l.length,
      (∀ j, (hj : j < l.length) → j < i →
        badRange (coerceSilence (l.get ⟨j, hj⟩)) = false) →
      badRange (coerceSilence (l.get ⟨i, hi⟩)) = true →
      validateSilences (.arr l) =
        .error (.invalidSilenceRange (coerceSilence (l.get ⟨i, hi⟩)))) ∧
    (∀ l : List RawSilence, l ≠ [] →
      (∀ s ∈ l, badRange (coerceSilence s) = false) →
      validateSilences (.arr l) = .ok (l.map coerceSilence)) := by
  refine ⟨rfl, rfl, ?_, ?_⟩
  · intro l i hi hbefore hp
    cases l with
    | nil => simp at hi
    | cons a t =>
      have key := find?_first badRange ((a :: t).map coerceSilence) i
        (by simpa using hi)
        (fun j hj hji => by
          rw [get_map_coerce (a :: t) j (by simpa using hj)]
          exact hbefore j (by simpa using hj) hji)
        (by rw [get_map_coerce (a :: t) i hi]; exact hp)
      rw [validateSilences_arr_cons, key, get_map_coerce (a :: t) i hi]
  · intro l hlne hall
    cases l with
    | nil => exact absurd rfl hlne
    | cons a t =>
      have hnone : ((a :: t).map coerceSilence).find? badRange = none :=
        List.find?_eq_none.mpr (fun x hx => by
          obtain ⟨s, hs, rfl⟩ := List.mem_map.mp hx
          simp [hall s hs])
      rw [validateSilences_arr_cons, hnone]

/-- Witness for the amended C3: the element with start 5 and end 5 is
rejected as invalidSilenceRange carrying the coerced element, via the
first-failure rule at index 0. -/
theorem validator_rules_in_order_witness :
    validateSilences (.arr [{ start := .num 5, «end» := .num 5 }]) =
      .error (.invalidSilenceRange (.fin 5, .fin 5)) := by
  have h := validator_rules_in_order.2.2.1 [{ start := .num 5, «end» := .num 5 }] 0
    (by decide) (fun j hj hji => absurd hji (Nat.not_lt_zero j))
    (by with_unfolding_all decide)
  exact h.trans (by with_unfolding_all decide)

/-- Counterexample to C3 as stated: an end field that coerces to the
non-finite number Infinity passes validation, so failure to coerce to a
finite number does not imply the invalidSilenceRange error. -/
theorem infinite_bound_passes_validation :
    validateSilences (.arr [{ start := .num 1, «end» := .str "Infinity" }]) =
      .ok [(.fin 1, .inf)] := by
  with_unfolding_all decide

theorem validator_ok_map {l : List RawSilence} {m : List (JSNumber × JSNumber)}
    (h : validateSilences (.arr l) = .ok m) : m = l.map coerceSilence := by
  cases l with
  | nil => exact absurd h (by simp [validateSilences])
  | cons a t =>
    rw [validateSilences_arr_cons] at h
    cases hfind : ((a :: t).map coerceSilence).find? badRange with
    | some s => rw [hfind] at h; exact Except.noConfusion h
    | none =>
      rw [hfind] at h
      injection h with h2
      exact h2.symm

/-- C2 (amended): no normalization happens before compilation: whenever the
validator succeeds it returns exactly the input elements, coerced by Number,
in input order, without sorting or merging; for the overlapping input
[(1,3),(2,4)] the compiled predicate therefore contains two overlapping
between-terms rather than the merged interval. -/
theorem validator_passes_intervals_unchanged :
    (∀ (l : List RawSilence) (m : List (JSNumber × JSNumber)),
      validateSilences (.arr l) = .ok m → m = l.map coerceSilence) ∧
    buildFilterExpr [(.fin 1, .fin 3), (.fin 2, .fin 4)] =
      "between(t,1,3)+between(t,2,4)" :=
  ⟨fun _ _ h => validator_ok_map h, by with_unfolding_all decide⟩

/-- Witness for the amended C2 at the overlapping input [(1,3),(2,4)]. -/
theorem validator_passes_intervals_unchanged_witness :
    ([(.fin 1, .fin 3), (.fin 2, .fin 4)] : List (JSNumber × JSNumber)) =
      ([{ start := .num 1, «end» := .num 3 },
        { start := .num 2, «end» := .num 4 }] : List RawSilence).map coerceSilence :=
  validator_passes_intervals_unchanged.1 _ _ (by with_unfolding_all decide)

/-- Counterexample to C2 as stated: the overlapping input [(1,3),(2,4)]
passes validation unchanged and compiles to two overlapping between-terms,
not to the compilation of the merged interval [(1,4)]. -/
theorem no_overlap_normalization_counterexample :
    validateSilences (.arr [{ start := .num 1, «end» := .num 3 },
      { start := .num 2, «end» := .num 4 }]) =
      .ok [(.fin 1, .fin 3), (.fin 2, .fin 4)] ∧
    buildFilterExpr [(.fin 1, .fin 3), (.fin 2, .fin 4)] =
      "between(t,1,3)+between(t,2,4)" ∧
    buildFilterExpr [(.fin 1, .fin 3), (.fin 2, .fin 4)] ≠
      buildFilterExpr [(.fin 1, .fin 4)] := by
  refine ⟨?_, ?_, ?_⟩ <;> with_unfolding_all decide

theorem betweenTerm_last (s : JSNumber × JSNumber) :
    (betweenTerm s).toList.getLast? = some ')' := by
  unfold betweenTerm
  rw [show ("between(t," ++ numToString s.1 ++ "," ++ numToString s.2 ++ ")").toList
      = ("between(t," ++ numToString s.1 ++ "," ++ numToString s.2).toList ++ [')']
      from by simp [String.toList, String.data_append]]
  exact List.getLast?_concat _

theorem joinPlus_last (ls : List String) (hne : ls ≠ [])
    (hall : ∀ x ∈ ls, x.toList.getLast? = some ')') :
    (joinPlus ls).toList.getLast? = some ')' := by
  induction ls with
  | nil => exact absurd rfl hne
  | cons x xs ih =>
    cases xs with
    | nil => exact hall x (by simp)
    | cons y ys =>
      have h2 := ih (by simp) (fun z hz => hall z (by simp [hz]))
      have hsplit : (joinPlus (x :: y :: ys)).toList
          = (x ++ "+").toList ++ (joinPlus (y :: ys)).toList := by
        rw [show joinPlus (x :: y :: ys) = x ++ "+" ++ joinPlus (y :: ys) from rfl]
        simp [String.toList, String.data_append]
      have hne2 : (joinPlus (y :: ys)).toList ≠ [] := by
        intro hempty
        rw [hempty] at h2
        exact Option.noConfusion h2
      rw [hsplit, List.getLast?_append_of_ne_nil _ hne2]
      exact h2

/-- C5: the compiler joins one between(t,start,end) term per validated
interval with the OR operator, the result never ends in a trailing operator
(its last character is the closing parenthesis, also for a single interval),
the identical predicate string is embedded byte for byte in both the audio
and the video filter argument, and on [(1.0,2.0),(4.5,5.0)] it produces
exactly the two expected terms. -/
theorem filter_compiler_spec :
    (∀ s : JSNumber × JSNumber, buildFilterExpr [s] = betweenTerm s) ∧
    (∀ silences : List (JSNumber × JSNumber), silences ≠ [] →
      (buildFilterExpr silences).toList.getLast? = some ')') ∧
    (∀ silences : List (JSNumber × JSNumber),
      audioFilterArg silences =
        "aselect='not(" ++ buildFilterExpr silences ++ ")',asetpts=N/SR/TB" ∧
      videoFilterArg silences =
        "select='not(" ++ buildFilterExpr silences ++ ")',setpts=N/FRAME_RATE/TB") ∧
    buildFilterExpr [(.fin 1, .fin 2), (.fin (9 / 2), .fin 5)] =
      "between(t,1,2)+between(t,4.5,5)" := by
  refine ⟨fun s => rfl, ?_, fun s => ⟨rfl, rfl⟩, by with_unfolding_all decide⟩
  intro silences hne
  apply joinPlus_last
  · simp [hne]
  · intro x hx
    obtain ⟨s, _, rfl⟩ := List.mem_map.mp hx
    exact betweenTerm_last s

/-- Witness for C5: a single-interval input yields a predicate ending in the
closing parenthesis, with no trailing operator. -/
theorem filter_compiler_spec_witness :
    (buildFilterExpr [(.fin 1, .fin 2)]).toList.getLast? = some ')' :=
  filter_compiler_spec.2.1 [(.fin 1, .fin 2)] (by simp)

/-- C6: the apply operation reaches the transform engine only after every
validation passed: a produced command implies the request held a video file
with a path, a silence payload that parsed to a non-empty array, and that no
element failed the range validation; the command is the one compiled from the
fully coerced list.  Contrapositively, on any validator failure the handler
returns an error and no command is ever built. -/
theorem apply_ok_implies_fully_validated (req : ApplyRequest) (out c : String)
    (h : applySilence req out = .ok c) :
    requestVideoPath req ≠ none ∧
    requestSilences req ≠ none ∧
    requestSilences req ≠ some [] ∧
    (∀ l, requestSilences req = some l →
      (∀ s ∈ l, badRange (coerceSilence s) = false) ∧
      validateSilences (.arr l) = .ok (l.map coerceSilence) ∧
      ∀ inp, requestVideoPath req = some inp →
        c = applyCmd inp out (l.map coerceSilence)) := by
  obtain ⟨files, raw⟩ := req
  cases files with
  | none => exact Except.noConfusion h
  | some fl =>
  unfold applySilence at h
  simp only [] at h
  cases hvf : fl.find? (fun f => f.fieldname == "video") with
  | none => simp only [hvf] at h; exact Except.noConfusion h
  | some vf =>
  simp only [hvf] at h
  cases hpath : vf.path with
  | none => simp only [hpath] at h; exact Except.noConfusion h
  | some inputPath =>
  simp only [hpath] at h
  cases raw with
  | none => exact Except.noConfusion h
  | some src =>
  cases hjson : sourceJson src with
  | none => simp only [hjson] at h; exact Except.noConfusion h
  | some j =>
  simp only [hjson] at h
  cases j with
  | nonArray => exact Except.noConfusion h
  | arr l =>
  cases hval : validateSilences (.arr l) with
  | error e => simp only [hval] at h; exact Except.noConfusion h
  | ok m =>
  simp only [hval] at h
  injection h with hc
  have hm : m = l.map coerceSilence := validator_ok_map hval
  have hlne : l ≠ [] := by
    intro hempty
    subst hempty
    rw [show validateSilences (.arr ([] : List RawSilence))
        = .error .emptySilenceList from rfl] at hval
    exact Except.noConfusion hval
  have hgood : ∀ s ∈ l, badRange (coerceSilence s) = false := by
    cases l with
    | nil => exact absurd rfl hlne
    | cons a t =>
      rw [validateSilences_arr_cons] at hval
      cases hfind : ((a :: t).map coerceSilence).find? badRange with
      | some s => rw [hfind] at hval; exact Except.noConfusion hval
      | none =>
        intro s hs
        have := List.find?_eq_none.mp hfind (coerceSilence s)
          (List.mem_map_of_mem coerceSilence hs)
        simpa using this
  have hvp : requestVideoPath ⟨some fl, some src⟩ = some inputPath := by
    simp only [requestVideoPath, hvf, hpath]
  have hrs : requestSilences ⟨some fl, some src⟩ = some l := by
    simp only [requestSilences, hjson]
  refine ⟨by rw [hvp]; simp, by rw [hrs]; simp, ?_, ?_⟩
  · rw [hrs]
    intro hsome
    injection hsome with hl
    exact hlne hl
  · intro l0 hl0
    rw [hrs] at hl0
    injection hl0 with hl0e
    subst hl0e
    refine ⟨hgood, ?_, ?_⟩
    · rw [hval, hm]
    · intro inp hinp
      rw [hvp] at hinp
      injection hinp with hinp2
      subst hinp2
      rw [← hc, hm]


/-- Witness for C6: a fully valid request produces exactly the compiled
command, and the validated facts hold of it. -/
theorem apply_ok_implies_fully_validated_witness :
    applySilence applyReqEx "out.mp4" =
      .ok (applyCmd "in.mp4" "out.mp4" [(.fin 1, .fin 2)]) ∧
    requestVideoPath applyReqEx ≠ none ∧
    requestSilences applyReqEx ≠ none ∧
    requestSilences applyReqEx ≠ some [] := by
  have hok : applySilence applyReqEx "out.mp4" =
      .ok (applyCmd "in.mp4" "out.mp4" [(.fin 1, .fin 2)]) := by
    with_unfolding_all decide
  have h := apply_ok_implies_fully_validated applyReqEx "out.mp4"
    (applyCmd "in.mp4" "out.mp4" [(.fin 1, .fin 2)]) hok
  exact ⟨hok, h.1, h.2.1, h.2.2.1⟩
